import Mathlib

/-!
Verification of the reactoverdrive server against its specification.

This file shallowly embeds the Python sources under `src/server/` into Lean:

* `analyze_music.py`  — feature extraction fallback (`generate_fallback_analysis`,
  `analyze_audio`) and segment detection (`detect_segments`,
  `generate_fallback_segments`);
* `api_server.py`     — the score-submission endpoint (`submit_score`);
* `analyze_lyrics.py` — the filename-based identification fallback (`identify_song`);
* `organize_files.py` — the catalog upsert (`update_song_catalog`).

Modelling conventions:
* Python floats are modelled as exact rationals (`ℚ`); the properties at stake
  are structural (ordering, contiguity, counts, labels), not rounding behaviour.
* Python exceptions (`ZeroDivisionError` in `detect_segments`, the `ValueError`
  of `int(...)` in `submit_score`) are modelled with `Option`/`Except`: a `none`
  or `.error` result marks the execution that raises.
* `random.uniform(a, b)` is modelled as `a + (b - a) * u` for an oracle value
  `u`; callers that need bounds assume `0 ≤ u ≤ 1`, which is the contract of
  `random.uniform`.  Other library calls made on successfully loaded audio
  (librosa beat/onset/rms extraction) are supplied by an environment record.
* Python `int(x)` truncates toward zero: see `pyInt`.
-/

namespace ReactOverdrive

/-- A song segment as produced by `detect_segments` / `generate_fallback_segments`
(`analyze_music.py`).  The Python dict key `"end"` is a Lean keyword, so the
field is called `stop` here.  The numeric path stores an `"energy"` key and the
fallback path does not, hence `energy : Option ℚ`. -/
structure Segment where
  type : String
  start : ℚ
  stop : ℚ
  energy : Option ℚ
deriving DecidableEq, Repr

/-- The analysis dictionary produced by `analyze_audio` /
`generate_fallback_analysis` (`analyze_music.py` lines 122-133 and 172-184):
metadata plus beats, onsets, energy profile and notes.  `generationMethod` is
`some "fallback"` exactly when the Python dict carries
`"generation_method": "fallback"`. -/
structure FeatureSet where
  filename : String
  duration : ℚ
  tempo : ℚ
  sampleRate : ℕ
  generationMethod : Option String
  beats : List ℚ
  onsets : List ℚ
  energy_profile : List (ℚ × ℚ)
  notes : List (ℚ × String)
deriving DecidableEq, Repr

/-- Python `int(x)` on a float: truncation toward zero. -/
def pyInt (q : ℚ) : ℤ := if 0 ≤ q then ⌊q⌋ else -⌊-q⌋

/-- Python `max(l)` for a nonempty list (the `[]` case is never consulted by
callers, which guard emptiness as the source does). -/
def maxList (l : List ℚ) : ℚ :=
  match l with
  | [] => 0
  | x :: xs => xs.foldl max x

/-- Stable ascending insertion, the building block of `sortLe`. -/
def insertLe {α : Type} [LinearOrder α] (a : α) : List α → List α
  | [] => [a]
  | b :: l => if a ≤ b then a :: b :: l else b :: insertLe a l

/-- Model of Python `sorted(l)` (ascending, stable). -/
def sortLe {α : Type} [LinearOrder α] : List α → List α
  | [] => []
  | a :: l => insertLe a (sortLe l)

/-- Python slice sum `sum(l[a:b])`. -/
def sumSlice (l : List ℚ) (a b : ℕ) : ℚ := ((l.drop a).take (b - a)).sum

/-- `scipy.ndimage` boundary handling in mode `reflect`
(`(d c b a | a b c d | d c b a)`): map an out-of-range index into `[0, n)`. -/
def reflectIdx (n : ℕ) (i : ℤ) : ℕ :=
  let m := i.emod (2 * n)
  if m < n then m.toNat else (2 * n - 1 - m).toNat

/-- One output sample of `scipy.ndimage.median_filter(l, size)` (rank
`size / 2` of the sorted window centred at `c`, reflected boundaries). -/
def windowMedian (l : List ℚ) (c size : ℕ) : ℚ :=
  let half := size / 2
  let window := (List.range size).map fun (j : ℕ) =>
    l.getD (reflectIdx l.length ((c : ℤ) + (j : ℤ) - (half : ℤ))) 0
  (sortLe window).getD (size / 2) 0

/-- `scipy.ndimage.median_filter(l, size)` on a 1-D input
(`analyze_music.py` lines 212-214 call it with sizes 15 and 9). -/
def medianFilter (size : ℕ) (l : List ℚ) : List ℚ :=
  (List.range l.length).map fun c => windowMedian l c size

/-- `analyze_music.py` lines 207-208:
`max_energy = max(energy_values) if energy_values else 1` followed by
`norm_energy = [e/max_energy for e in energy_values]`.  The division by zero
that Python raises when the maximum is `0` (a nonempty all-zero profile) is
modelled as `none`. -/
def normalizeEnergy (vals : List ℚ) : Option (List ℚ) :=
  let max_energy := if vals = [] then 1 else maxList vals
  if max_energy = 0 then none
  else some (vals.map fun e => e / max_energy)

/-- The quantities `detect_segments` derives before scanning for change
points (`analyze_music.py` lines 204-237): times, doubly smoothed normalized
energy, window size, thresholds and the minimum index spacing.  `none` models
the `ZeroDivisionError`s raised on an all-zero energy profile (line 208), an
empty profile (line 226) or a zero duration (line 237). -/
structure SegCtx where
  times : List ℚ
  smoothed : List ℚ
  window : ℕ
  minIdx : ℤ
  highThr : ℚ
  lowThr : ℚ
  changeThr : ℚ
deriving DecidableEq, Repr

def segCtx (fs : FeatureSet) : Option SegCtx :=
  let times := fs.energy_profile.map Prod.fst
  let energy_values := fs.energy_profile.map Prod.snd
  (normalizeEnergy energy_values).bind fun norm_energy =>
    let smoothed := medianFilter 9 (medianFilter 15 norm_energy)
    let window := max 30 (min (pyInt ((norm_energy.length : ℚ) * 0.04)).toNat 60)
    if smoothed.length = 0 then none
    else
      let avg := smoothed.sum / (smoothed.length : ℚ)
      if fs.duration = 0 then none
      else
        some { times := times, smoothed := smoothed, window := window,
               minIdx := pyInt (10 * (times.length : ℚ) / fs.duration),
               highThr := avg * 1.4, lowThr := avg * 0.6,
               changeThr := 0.35 * avg }

/-- Loop body of the change-point scan (`analyze_music.py` lines 240-249):
skip `i` if it is too close to the previous accepted point, otherwise accept
it when the windowed averages differ by more than the threshold. -/
def scanStep (smoothed : List ℚ) (w : ℕ) (minIdx : ℤ) (thr : ℚ)
    (cps : List ℕ) (i : ℕ) : List ℕ :=
  if cps ≠ [] ∧ (i : ℤ) - (cps.getLastD 0 : ℤ) < minIdx then cps
  else
    let prev_avg := sumSlice smoothed (i - w) i / (w : ℚ)
    let next_avg := sumSlice smoothed i (i + w) / (w : ℚ)
    if thr < |next_avg - prev_avg| then cps ++ [i] else cps

/-- The sliding-window scan over `range(window, len(smoothed) - window)`
(`analyze_music.py` lines 240-249). -/
def scanChangePoints (smoothed : List ℚ) (w : ℕ) (minIdx : ℤ) (thr : ℚ) : List ℕ :=
  (List.range' w (smoothed.length - w - w)).foldl (scanStep smoothed w minIdx thr) []

/-- `analyze_music.py` lines 251-255: force index `0` and the final index into
the change-point list when absent. -/
def addEndpoints (cps : List ℕ) (lastIdx : ℕ) : List ℕ :=
  let c1 := if 0 ∈ cps then cps else 0 :: cps
  if lastIdx ∈ c1 then c1 else c1 ++ [lastIdx]

/-- Loop body of the second minimum-spacing filter
(`analyze_music.py` lines 260-263): keep `cp` when
`cp - filtered[-1] >= min_indices_between_segments`. -/
def spacingStep (minIdx : ℤ) (acc : List ℕ) (cp : ℕ) : List ℕ :=
  if minIdx ≤ (cp : ℤ) - (acc.getLastD 0 : ℤ) then acc ++ [cp] else acc

/-- `analyze_music.py` lines 260-264: start from `[0]`, filter the interior
points (`change_points[1:-1]`) by minimum spacing, then unconditionally append
the final point `change_points[-1]`. -/
def minSpacingFilter (cps : List ℕ) (minIdx : ℤ) : List ℕ :=
  ((cps.drop 1).dropLast.foldl (spacingStep minIdx) [0]) ++ [cps.getLastD 0]

/-- The fully filtered change-point list used to build segments
(`analyze_music.py` lines 240-266). -/
def filteredCps (c : SegCtx) : List ℕ :=
  let cps0 := scanChangePoints c.smoothed c.window c.minIdx c.changeThr
  minSpacingFilter (sortLe (addEndpoints cps0 (c.smoothed.length - 1))) c.minIdx

/-- Segment label assignment (`analyze_music.py` lines 281-291): the first
segment is `intro`, the last is `outro`, and interior segments are classified
by their mean energy against the thresholds. -/
def segType (i numCps : ℕ) (segE high low : ℚ) : String :=
  if i = 0 then "intro"
  else if i = numCps - 2 then "outro"
  else if high < segE then "chorus"
  else if segE < low then "verse"
  else "bridge"

/-- `analyze_music.py` lines 271-298: one segment per consecutive pair of
change points.  All list indices used here are in range in every execution
(the change points are bounded by `len(smoothed) - 1` and the times list has
the same length), so total `getD` indexing agrees with Python indexing. -/
def buildSegments (c : SegCtx) (cps : List ℕ) : List Segment :=
  (List.range (cps.length - 1)).map fun i =>
    let s := cps.getD i 0
    let e := cps.getD (i + 1) 0
    let segE := sumSlice c.smoothed s (e + 1) / ((e : ℚ) - (s : ℚ) + 1)
    { type := segType i cps.length segE c.highThr c.lowThr,
      start := c.times.getD s 0, stop := c.times.getD e 0, energy := some segE }

/-- `generate_fallback_segments` (`analyze_music.py` lines 303-342): the fixed
eight-part template scaled to the track duration. -/
def generate_fallback_segments (duration : ℚ) : List Segment :=
  let intro_end := min (duration * 0.15) 30
  let verse1_end := intro_end + min (duration * 0.2) 45
  let chorus1_end := verse1_end + min (duration * 0.15) 30
  let verse2_end := chorus1_end + min (duration * 0.2) 45
  let chorus2_end := verse2_end + min (duration * 0.15) 30
  let bridge_end := chorus2_end + min (duration * 0.1) 30
  let final_chorus_end := duration - 5
  [ { type := "intro", start := 0, stop := intro_end, energy := none },
    { type := "verse", start := intro_end, stop := verse1_end, energy := none },
    { type := "chorus", start := verse1_end, stop := chorus1_end, energy := none },
    { type := "verse", start := chorus1_end, stop := verse2_end, energy := none },
    { type := "chorus", start := verse2_end, stop := chorus2_end, energy := none },
    { type := "bridge", start := chorus2_end, stop := bridge_end, energy := none },
    { type := "chorus", start := bridge_end, stop := final_chorus_end, energy := none },
    { type := "outro", start := final_chorus_end, stop := duration, energy := none } ]

/-- `detect_segments` (`analyze_music.py` lines 190-301).  `deps` models the
module-level `DEPENDENCIES_INSTALLED` flag.  The Python function returns the
analysis dict with a `"segments"` key attached; this embedding returns that
segments list, with `none` marking the executions in which Python raises. -/
def detect_segments (deps : Bool) (fs : FeatureSet) : Option (List Segment) :=
  if deps = false ∨ fs.generationMethod = some "fallback" then
    some (generate_fallback_segments fs.duration)
  else
    (segCtx fs).map fun c => buildSegments c (filteredCps c)

/-- The filtered change-point set as computed inside `detect_segments` for a
non-degraded feature set (used to state claims about the spacing filter). -/
def filteredCpsOf (fs : FeatureSet) : Option (List ℕ) :=
  (segCtx fs).map filteredCps

/-! ## `analyze_music.py`: `generate_fallback_analysis` and `analyze_audio` -/

/-- `random.uniform(lo, hi)` given an oracle draw `u` (the library guarantees
`0 ≤ u ≤ 1`). -/
def uniform (lo hi u : ℚ) : ℚ := lo + (hi - lo) * u

/-- Stable ascending insertion by a rational key. -/
def insertByKey {α : Type} (key : α → ℚ) (a : α) : List α → List α
  | [] => [a]
  | b :: l => if key a ≤ key b then a :: b :: l else b :: insertByKey key a l

/-- Model of Python `list.sort(key=...)` / `sorted(key=...)`: stable,
ascending by key.  Elements are inserted in order of appearance and an element
is placed after all already-placed elements whose key is `≤` its own, which is
exactly stable ascending order. -/
def sortByKey {α : Type} (key : α → ℚ) : List α → List α
  | [] => []
  | a :: l => insertByKey key a (sortByKey key l)

/-- `generate_placeholder_notes` (`analyze_music.py` lines 65-80): 50 notes at
oracle-drawn times in `[0, 180]`, sorted by time. -/
def generate_placeholder_notes (uNote : ℕ → ℚ) (pick : ℕ → ℕ) : List (ℚ × String) :=
  let noteNames := ["C4", "D4", "E4", "F4", "G4", "A4", "B4", "C5"]
  let note_events := (List.range 50).map fun i =>
    (uniform 0 180 (uNote i), noteNames.getD (pick i % 8) "C4")
  sortByKey Prod.fst note_events

/-- `generate_fallback_analysis` (`analyze_music.py` lines 137-187): the
synthetic feature set used when dependencies are missing or decoding failed.
Duration is estimated from the file size at 1 MB per minute; tempo is drawn
uniformly from `[85, 120]`; beats, onsets, an energy profile and placeholder
notes are generated; the result is tagged `generation_method = "fallback"`.
`sinQ` stands for `math.sin` (only `|sin| ≤ 1` ever matters). -/
def generate_fallback_analysis (filename : String) (file_size : ℕ)
    (uTempo : ℚ) (uOnset uNote : ℕ → ℚ) (pick : ℕ → ℕ) (sinQ : ℚ → ℚ) : FeatureSet :=
  let estimated_duration : ℚ := ((file_size : ℚ) / (1024 * 1024)) * 60
  let tempo := uniform 85 120 uTempo
  let beat_interval := 60 / tempo
  let beats := (List.range (pyInt (estimated_duration / beat_interval)).toNat).map
    fun (i : ℕ) => (i : ℚ) * beat_interval
  let onset_count := (pyInt (estimated_duration * 2)).toNat
  let onsets := sortByKey id ((List.range onset_count).map
    fun (i : ℕ) => uniform 0 estimated_duration (uOnset i))
  let energy_profile := (List.range ((pyInt estimated_duration).toNat + 1)).map
    fun (i : ℕ) => ((i : ℚ), 0.5 + 0.3 * |sinQ ((i : ℚ) / 10)|)
  let notes := generate_placeholder_notes uNote pick
  { filename := filename, duration := estimated_duration, tempo := tempo,
    sampleRate := 44100, generationMethod := some "fallback",
    beats := beats, onsets := onsets, energy_profile := energy_profile,
    notes := notes }

/-- The results of the librosa calls `analyze_audio` makes on a successfully
loaded file: `load` is the outcome of `librosa.load`/`get_duration`
(`.error` = the exception caught at `analyze_music.py` line 97), and the
remaining fields are the beat, onset, RMS-energy and note extraction results
for the loaded audio. -/
structure LibrosaEnv where
  load : Except String (ℚ × ℕ)
  tempo : ℚ
  beat_times : List ℚ
  onset_times : List ℚ
  energy : List (ℚ × ℚ)
  notes : List (ℚ × String)

/-- `analyze_audio` (`analyze_music.py` lines 83-135): use the synthetic
generator when dependencies are missing or loading fails, otherwise assemble
the analysis dict from the librosa results. -/
def analyze_audio (deps : Bool) (env : LibrosaEnv) (filename : String) (file_size : ℕ)
    (uTempo : ℚ) (uOnset uNote : ℕ → ℚ) (pick : ℕ → ℕ) (sinQ : ℚ → ℚ) : FeatureSet :=
  if deps = false then
    generate_fallback_analysis filename file_size uTempo uOnset uNote pick sinQ
  else
    match env.load with
    | .error _ => generate_fallback_analysis filename file_size uTempo uOnset uNote pick sinQ
    | .ok (duration, sr) =>
        { filename := filename, duration := duration, tempo := env.tempo,
          sampleRate := sr, generationMethod := none,
          beats := env.beat_times, onsets := env.onset_times,
          energy_profile := env.energy, notes := env.notes }

/-! ## `api_server.py`: `submit_score` -/

/-- The outcome of `int(score)` on the submitted JSON value: `intLike n` when
the coercion succeeds with value `n`, `nonNumeric` when it raises
`ValueError`/`TypeError`. -/
inductive ScoreValue where
  | intLike (n : ℤ)
  | nonNumeric
deriving DecidableEq, Repr

/-- One record of a `*_scores.json` leaderboard. -/
structure ScoreRec where
  initials : String
  score : ℤ
  date : String
deriving DecidableEq, Repr

/-- Stable descending insertion by score: the inserted record goes after every
already-placed record whose score is `≥` its own. -/
def insertScoreDesc (a : ScoreRec) : List ScoreRec → List ScoreRec
  | [] => [a]
  | b :: l => if b.score ≤ a.score then a :: b :: l else b :: insertScoreDesc a l

/-- Model of `sorted(scores, key=lambda x: x.get("score", 0), reverse=True)`
(`api_server.py` line 349): stable descending sort by score. -/
def sortScoresDesc : List ScoreRec → List ScoreRec
  | [] => []
  | a :: l => insertScoreDesc a (sortScoresDesc l)

/-- `next((i+1 for i, s in enumerate(scores) if s == new_score), -1)`
(`api_server.py` line 363): 1-based index of the first record equal to
`new`, or `-1`. -/
def findRank (new : ScoreRec) : List ScoreRec → ℤ → ℤ
  | [], _ => -1
  | r :: rest, i => if r = new then i + 1 else findRank new rest (i + 1)

/-- `submit_score` (`api_server.py` lines 275-364), for a request whose
required fields are present and whose song lookup succeeded, acting on the
stored leaderboard `stored`.  Returns the persisted list, the response list
(top 10) and the returned rank; `.error` models the 400 response
`"Score must be a number"` produced when `int(score)` raises (line 297), in
which case nothing is written. -/
def submit_score (stored : List ScoreRec) (score : ScoreValue)
    (initials date : String) : Except String (List ScoreRec × List ScoreRec × ℤ) :=
  match score with
  | .nonNumeric => .error "Score must be a number"
  | .intLike n =>
      let new_score : ScoreRec := ⟨(initials.take 3).toUpper, n, date⟩
      let sorted := sortScoresDesc (stored ++ [new_score])
      .ok (sorted, sorted.take 10, findRank new_score sorted 0)

/-- The default record `process_upload.py` (lines 17-19, 258-267) seeds a
fresh `*_scores.json` with. -/
def defaultSeedScore (date : String) : ScoreRec := ⟨"BTF", 100, date⟩

/-! ## `analyze_lyrics.py`: filename fallback of `identify_song` -/

/-- The metadata dict returned by `identify_song`. -/
structure SongId where
  title : String
  artist : String
  filename : String
deriving DecidableEq, Repr

/-- `os.path.basename` for POSIX paths: the part after the last `/`. -/
def basenameChars (l : List Char) : List Char :=
  l.foldl (fun acc c => if c = '/' then [] else acc ++ [c]) []

/-- Index of the last `.` in a name, if any. -/
def lastDotIdx (l : List Char) : Option ℕ :=
  ((List.range l.length).filter fun i => l.getD i ' ' = '.').getLast?

/-- `pathlib.Path(...).stem` on a file name: strip the final suffix.  A dot at
position 0 (hidden file) or at the very end is not a suffix. -/
def stemChars (l : List Char) : List Char :=
  match lastDotIdx l with
  | none => l
  | some i => if i = 0 ∨ i + 1 = l.length then l else l.take i

/-- Split a character list at the first occurrence of `" - "`, if any
(Python `filename.split(" - ", 1)`; `none` means the separator is absent,
i.e. `" - " in filename` is false). -/
def splitDashOnce : List Char → Option (List Char × List Char)
  | ' ' :: '-' :: ' ' :: rest => some ([], rest)
  | c :: rest => (splitDashOnce rest).map fun p => (c :: p.1, p.2)
  | [] => none

/-- Python `str.strip()`: drop whitespace from both ends. -/
def stripChars (l : List Char) : List Char :=
  ((l.dropWhile Char.isWhitespace).reverse.dropWhile Char.isWhitespace).reverse

/-- Python `filename.replace("_", " ")`. -/
def underscoresToSpaces (l : List Char) : List Char :=
  l.map fun c => if c = '_' then ' ' else c

/-- `filename[0:2].isdigit() and filename[2:3] in [" ", "-"]`
(`analyze_lyrics.py` line 76). -/
def trackPrefixCond (l : List Char) : Prop :=
  (l.take 2 ≠ [] ∧ ∀ c ∈ l.take 2, c.isDigit) ∧
    ((l.drop 2).take 1 = [' '] ∨ (l.drop 2).take 1 = ['-'])

instance (l : List Char) : Decidable (trackPrefixCond l) := by
  unfold trackPrefixCond; infer_instance

/-- The filename fallback of `identify_song` (`analyze_lyrics.py` lines
69-92, the `DEPENDENCIES_INSTALLED == False` branch): optionally strip a
leading two-digit track prefix, split on the first `" - "` into artist and
title, and otherwise use the whole stem (underscores replaced by spaces) as
the title with artist `"Unknown Artist"`. -/
def identify_song_fallback (file_path : String) : SongId :=
  let base := basenameChars file_path.data
  let filename := stemChars base
  match splitDashOnce filename with
  | some _ =>
      let filename1 :=
        if trackPrefixCond filename then stripChars (filename.drop 3) else filename
      match splitDashOnce filename1 with
      | some (a, t) =>
          ⟨String.mk (stripChars t), String.mk (stripChars a), String.mk base⟩
      | none =>
          ⟨String.mk (underscoresToSpaces filename1), "Unknown Artist", String.mk base⟩
  | none =>
      ⟨String.mk (underscoresToSpaces filename), "Unknown Artist", String.mk base⟩

/-- The filename fallback in the exception handler of `identify_song`
(`analyze_lyrics.py` lines 181-196; the no-high-confidence fallback at lines
158-173 is textually identical).  Unlike the missing-dependencies branch, it
splits the stem on the first `" - "` *without* stripping any leading
track-number prefix.  This branch is reachable with dependencies installed:
with no API key set, line 98 calls the undefined name
`fallback_to_filename_metadata`, the resulting `NameError` is caught at line
178 and this fallback runs. -/
def identify_song_exc_fallback (file_path : String) : SongId :=
  let base := basenameChars file_path.data
  let filename := stemChars base
  match splitDashOnce filename with
  | some (a, t) =>
      ⟨String.mk (stripChars t), String.mk (stripChars a), String.mk base⟩
  | none =>
      ⟨String.mk (underscoresToSpaces filename), "Unknown Artist", String.mk base⟩

/-! ## `organize_files.py`: `update_song_catalog` -/

/-- The song metadata dict handed to `update_song_catalog`; fields are
optional because the source reads every one of them with `dict.get`. -/
structure SongMeta where
  title : Option String
  artist : Option String
  filename : Option String
  duration : Option ℚ
  tempo : Option ℚ
  mood : Option String
deriving DecidableEq, Repr

/-- One entry of `processed_songs.json`. -/
structure CatalogEntry where
  title : String
  artist : String
  filename : Option String
  duration : ℚ
  tempo : ℚ
  mood : String
  file_path : String
  analysis_path : String
deriving DecidableEq, Repr

/-- Python `str(x)` on an optional string (an absent filename renders as
`"None"` inside an f-string). -/
def optStr (o : Option String) : String := o.getD "None"

/-- Python `s.replace(" ", "_")` (single-character replacement). -/
def spacesToUnderscores (s : String) : String :=
  String.mk (s.data.map fun c => if c = ' ' then '_' else c)

/-- Python `s.replace(".mp3", "_analysis.json")` (replace every occurrence of
the fixed pattern). -/
def mp3ToAnalysisJson : List Char → List Char
  | '.' :: 'm' :: 'p' :: '3' :: rest => ("_analysis.json".data) ++ mp3ToAnalysisJson rest
  | c :: rest => c :: mp3ToAnalysisJson rest
  | [] => []

/-- The catalog entry built at `organize_files.py` lines 53-66. -/
def mkCatalogEntry (song : SongMeta) : CatalogEntry :=
  let relative_path :=
    "data/processed/" ++ spacesToUnderscores (song.artist.getD "Unknown_Artist")
      ++ "/" ++ spacesToUnderscores (song.title.getD "Unknown_Title")
  { title := song.title.getD "Unknown_Title",
    artist := song.artist.getD "Unknown_Artist",
    filename := song.filename,
    duration := song.duration.getD 0,
    tempo := song.tempo.getD 0,
    mood := song.mood.getD "Unknown",
    file_path := relative_path ++ "/" ++ optStr song.filename,
    analysis_path := relative_path ++ "/" ++ String.mk (mp3ToAnalysisJson (optStr song.filename).data) }

/-- `update_song_catalog` (`organize_files.py` lines 30-73), acting on the
loaded catalog list: remove the first entry whose filename matches the new
song's filename (the `for`/`remove`/`break` loop at lines 46-51 — removing the
first list element equal to the first matching entry removes exactly that
entry, since any earlier equal element would itself match first), then append
the freshly built entry. -/
def update_song_catalog (catalog : List CatalogEntry) (song : SongMeta) : List CatalogEntry :=
  (catalog.eraseP fun e => decide (e.filename = song.filename)) ++ [mkCatalogEntry song]

/-! ## General helper lemmas -/

theorem insertByKey_length {α : Type} (key : α → ℚ) (a : α) (l : List α) :
    (insertByKey key a l).length = l.length + 1 := by
  induction l with
  | nil => rfl
  | cons b t ih => simp only [insertByKey]; split <;> simp [ih]

theorem sortByKey_length {α : Type} (key : α → ℚ) (l : List α) :
    (sortByKey key l).length = l.length := by
  induction l with
  | nil => rfl
  | cons b t ih => simp [sortByKey, insertByKey_length, ih]

theorem le_foldl_max (xs : List ℚ) (a : ℚ) : a ≤ xs.foldl max a := by
  induction xs generalizing a with
  | nil => exact le_refl a
  | cons x t ih => exact le_trans (le_max_left a x) (ih (max a x))

theorem mem_le_foldl_max (xs : List ℚ) (a v : ℚ) (hv : v ∈ xs) : v ≤ xs.foldl max a := by
  induction xs generalizing a with
  | nil => cases hv
  | cons x t ih =>
      rcases List.mem_cons.mp hv with h | h
      · subst h; exact le_trans (le_max_right a v) (le_foldl_max t (max a v))
      · exact ih (max a x) h

theorem mem_le_maxList (l : List ℚ) (v : ℚ) (hv : v ∈ l) : v ≤ maxList l := by
  cases l with
  | nil => cases hv
  | cons x xs =>
      rcases List.mem_cons.mp hv with h | h
      · subst h; exact le_foldl_max xs v
      · exact mem_le_foldl_max xs x v h

theorem getLastD_spec {α : Type} (l : List α) (d : α) (h : l ≠ []) :
    l.getLast? = some (l.getLastD d) := by
  rw [List.getLastD_eq_getLast?, List.getLast?_eq_getLast l h]
  rfl

theorem countP_eraseP_of_le_one {α : Type} (p : α → Bool) (l : List α)
    (h : l.countP p ≤ 1) : (l.eraseP p).countP p = 0 := by
  induction l with
  | nil => rfl
  | cons a t ih =>
      rw [List.countP_cons] at h
      rw [List.eraseP_cons]
      by_cases ha : p a
      · rw [if_pos ha] at h
        simp only [ha, cond_true]
        omega
      · rw [if_neg ha] at h
        have ha' : p a = false := by rwa [Bool.not_eq_true] at ha
        simp only [ha', cond_false, List.countP_cons, ha']
        simp only [Bool.false_eq_true, if_false, add_zero]
        exact ih (by omega)

/-! ## Claim theorems -/

/-- C2: for every degraded feature set (`generation_method == "fallback"` or
dependencies missing), `detect_segments` skips the numeric scan and returns
exactly the fixed eight-segment template intro, verse, chorus, verse, chorus,
bridge, chorus, outro, scaled to the track duration: contiguous boundaries
computed from `duration`, starting at 0 and ending at `duration`. -/
theorem detect_segments_degraded_template (deps : Bool) (fs : FeatureSet)
    (hdeg : deps = false ∨ fs.generationMethod = some "fallback") :
    detect_segments deps fs = some (generate_fallback_segments fs.duration) ∧
    (generate_fallback_segments fs.duration).map Segment.type =
      ["intro", "verse", "chorus", "verse", "chorus", "bridge", "chorus", "outro"] ∧
    (generate_fallback_segments fs.duration).length = 8 ∧
    List.Chain' (fun a b => a.stop = b.start) (generate_fallback_segments fs.duration) ∧
    (generate_fallback_segments fs.duration).head?.map Segment.start = some 0 ∧
    (generate_fallback_segments fs.duration).getLast?.map Segment.stop = some fs.duration := by
  refine ⟨?_, rfl, rfl, ?_, rfl, rfl⟩
  · unfold detect_segments
    rw [if_pos hdeg]
  · simp [generate_fallback_segments, List.chain'_cons]

/-- C2 witness: the degraded template at a concrete feature set. -/
theorem detect_segments_degraded_template_witness :
    detect_segments true
        { filename := "a.mp3", duration := 150, tempo := 100, sampleRate := 44100,
          generationMethod := some "fallback", beats := [], onsets := [],
          energy_profile := [], notes := [] } =
      some (generate_fallback_segments 150) ∧
    (generate_fallback_segments 150).map Segment.type =
      ["intro", "verse", "chorus", "verse", "chorus", "bridge", "chorus", "outro"] := by
  have h := detect_segments_degraded_template true
    { filename := "a.mp3", duration := 150, tempo := 100, sampleRate := 44100,
      generationMethod := some "fallback", beats := [], onsets := [],
      energy_profile := [], notes := [] } (Or.inr rfl)
  exact ⟨h.1, h.2.1⟩

/-- C3 counterexample: a negative score passes validation — `submit_score`
accepts `-5`, appends it and rewrites the leaderboard, instead of failing
with a validation error and leaving the stored list unchanged. -/
theorem submit_score_negative_accepted :
    submit_score [⟨"BTF", 100, "2026-01-01"⟩] (.intLike (-5)) "abc" "2026-01-02" =
      .ok ([⟨"BTF", 100, "2026-01-01"⟩, ⟨"ABC", -5, "2026-01-02"⟩],
           [⟨"BTF", 100, "2026-01-01"⟩, ⟨"ABC", -5, "2026-01-02"⟩], 2) ∧
    ([⟨"BTF", 100, "2026-01-01"⟩, ⟨"ABC", -5, "2026-01-02"⟩] : List ScoreRec) ≠
      [⟨"BTF", 100, "2026-01-01"⟩] := by
  exact ⟨by with_unfolding_all rfl, by decide⟩

/-- C3 (amended): `submit_score` fails with the validation error exactly when
the submitted score is not coercible to an integer (`int(score)` raises); any
integer — negative ones included — is accepted. -/
theorem submit_score_validation (stored : List ScoreRec) (initials date : String) :
    submit_score stored .nonNumeric initials date = .error "Score must be a number" ∧
    ∀ n : ℤ, ∃ out, submit_score stored (.intLike n) initials date = .ok out :=
  ⟨rfl, fun _ => ⟨_, rfl⟩⟩

/-- C10: with at most one catalog entry per filename, the upsert leaves
exactly one entry for the song's filename, and running it a second time with
the same song still leaves exactly one entry (not two). -/
theorem update_song_catalog_upsert (catalog : List CatalogEntry) (song : SongMeta)
    (h : catalog.countP (fun e => decide (e.filename = song.filename)) ≤ 1) :
    (update_song_catalog catalog song).countP
        (fun e => decide (e.filename = song.filename)) = 1 ∧
    (update_song_catalog (update_song_catalog catalog song) song).countP
        (fun e => decide (e.filename = song.filename)) = 1 := by
  have hstep : ∀ cat : List CatalogEntry,
      cat.countP (fun e => decide (e.filename = song.filename)) ≤ 1 →
      (update_song_catalog cat song).countP
        (fun e => decide (e.filename = song.filename)) = 1 := by
    intro cat hc
    unfold update_song_catalog
    rw [List.countP_append, countP_eraseP_of_le_one _ _ hc]
    simp [mkCatalogEntry]
  have h1 := hstep catalog h
  exact ⟨h1, hstep _ (le_of_eq h1)⟩

/-- C10 witness: upserting the same song twice into an empty catalog leaves a
single entry for its filename. -/
theorem update_song_catalog_upsert_witness :
    (([] : List CatalogEntry).countP
        (fun e => decide (e.filename = (some "t.mp3" : Option String))) ≤ 1) ∧
    (update_song_catalog []
        ⟨some "T", some "A", some "t.mp3", some 10, some 120, none⟩).countP
      (fun e => decide (e.filename = (some "t.mp3" : Option String))) = 1 ∧
    (update_song_catalog
        (update_song_catalog []
          ⟨some "T", some "A", some "t.mp3", some 10, some 120, none⟩)
        ⟨some "T", some "A", some "t.mp3", some 10, some 120, none⟩).countP
      (fun e => decide (e.filename = (some "t.mp3" : Option String))) = 1 := by
  have h := update_song_catalog_upsert []
    ⟨some "T", some "A", some "t.mp3", some 10, some 120, none⟩ (by decide)
  exact ⟨by decide, h.1, h.2⟩

/-- C9 counterexample: the claim fails on both code paths it cites.  The
exception-handler fallback (`analyze_lyrics.py` 181-196) never strips the
track-number prefix, so `"03 Tool - Sober.mp3"` yields artist `"03 Tool"`
there, not `"Tool"`; and in the missing-dependencies branch a stem with no
`" - "` separator does not become the title unchanged — underscores are
replaced by spaces (`filename.replace("_", " ")`), so `"a_b.mp3"` yields
title `"a b"`, not `"a_b"`. -/
theorem identify_song_prefix_not_stripped :
    identify_song_exc_fallback "03 Tool - Sober.mp3" =
      ⟨"Sober", "03 Tool", "03 Tool - Sober.mp3"⟩ ∧
    ("03 Tool" : String) ≠ "Tool" ∧
    (identify_song_fallback "a_b.mp3").title = "a b" ∧
    ("a b" : String) ≠ "a_b" :=
  ⟨rfl, by decide, rfl, by decide⟩

/-- C9 (amended): only the missing-dependencies filename fallback of
`identify_song` strips a leading two-digit track-number prefix before
splitting on `" - "` (`"03 Tool - Sober.mp3"` gives artist `"Tool"`, title
`"Sober"` there); the exception-handler fallback splits the raw stem, giving
artist `"03 Tool"`, title `"Sober"` for the same file.  In both fallbacks a
stem with no `" - "` separator yields artist `"Unknown Artist"` with the
stem, underscores replaced by spaces, as the title (`"bulletbfly.mp3"` gives
`"bulletbfly"`). -/
theorem identify_song_fallback_spec :
    identify_song_fallback "03 Tool - Sober.mp3" =
      ⟨"Sober", "Tool", "03 Tool - Sober.mp3"⟩ ∧
    identify_song_exc_fallback "03 Tool - Sober.mp3" =
      ⟨"Sober", "03 Tool", "03 Tool - Sober.mp3"⟩ ∧
    identify_song_fallback "bulletbfly.mp3" =
      ⟨"bulletbfly", "Unknown Artist", "bulletbfly.mp3"⟩ ∧
    identify_song_exc_fallback "bulletbfly.mp3" =
      ⟨"bulletbfly", "Unknown Artist", "bulletbfly.mp3"⟩ ∧
    ∀ p : String, splitDashOnce (stemChars (basenameChars p.data)) = none →
      identify_song_fallback p =
        ⟨String.mk (underscoresToSpaces (stemChars (basenameChars p.data))),
         "Unknown Artist", String.mk (basenameChars p.data)⟩ ∧
      identify_song_exc_fallback p = identify_song_fallback p := by
  refine ⟨rfl, rfl, rfl, rfl, fun p h => ⟨?_, ?_⟩⟩
  · unfold identify_song_fallback
    dsimp only
    rw [h]
  · unfold identify_song_fallback identify_song_exc_fallback
    dsimp only
    rw [h]

/-- C9 witness: the no-separator branch at a concrete path, on both fallback
paths. -/
theorem identify_song_fallback_witness :
    splitDashOnce (stemChars (basenameChars "my_song.mp3".data)) = none ∧
    identify_song_fallback "my_song.mp3" =
      ⟨"my song", "Unknown Artist", "my_song.mp3"⟩ ∧
    identify_song_exc_fallback "my_song.mp3" = identify_song_fallback "my_song.mp3" :=
  ⟨rfl, (identify_song_fallback_spec.2.2.2.2 "my_song.mp3" rfl).1,
    (identify_song_fallback_spec.2.2.2.2 "my_song.mp3" rfl).2⟩

/-- C6 counterexample: on a non-degraded feature set whose energy profile is
nonempty and all zero, `detect_segments` fails (the guard only replaces the
maximum for an *empty* profile, so `max = 0` reaches the division by zero)
instead of treating the profile as uniform 0. -/
theorem detect_segments_all_zero_fails :
    detect_segments true
        { filename := "z.mp3", duration := 5, tempo := 100, sampleRate := 44100,
          generationMethod := none, beats := [], onsets := [],
          energy_profile := [(0, 0), (1, 0), (2, 0)], notes := [] } = none ∧
    ∀ p ∈ [((0 : ℚ), (0 : ℚ)), (1, 0), (2, 0)], p.2 = 0 := by
  exact ⟨rfl, by decide⟩

/-- C6 (amended): for a nonempty energy profile with positive maximum the
normalization step of `detect_segments` divides each value by the maximum and
yields values in `[0, 1]`; the `max = 0` guard of the source only covers the
empty profile, a nonempty all-zero profile makes `detect_segments` fail. -/
theorem normalizeEnergy_spec (vals : List ℚ) (hne : vals ≠ [])
    (hpos : 0 < maxList vals) (hnn : ∀ v ∈ vals, 0 ≤ v) :
    normalizeEnergy vals = some (vals.map fun e => e / maxList vals) ∧
    ∀ x ∈ vals.map (fun e => e / maxList vals), 0 ≤ x ∧ x ≤ 1 := by
  constructor
  · unfold normalizeEnergy
    rw [if_neg hne, if_neg (ne_of_gt hpos)]
  · intro x hx
    rcases List.mem_map.mp hx with ⟨e, he, rfl⟩
    exact ⟨div_nonneg (hnn e he) (le_of_lt hpos),
      (div_le_one hpos).mpr (mem_le_maxList vals e he)⟩

/-- C6 witness: normalization of a concrete profile with positive maximum. -/
theorem normalizeEnergy_spec_witness :
    normalizeEnergy [0, 2, 1] = some [0, 1, 1/2] ∧
    ∀ x ∈ ([0, 2, 1] : List ℚ).map (fun e => e / maxList [0, 2, 1]), 0 ≤ x ∧ x ≤ 1 := by
  have h := normalizeEnergy_spec [0, 2, 1] (by decide) (by decide) (by decide)
  exact ⟨by rw [h.1]; with_unfolding_all rfl, h.2⟩

/-- C3 witness: the validation outcomes at a concrete leaderboard. -/
theorem submit_score_validation_witness :
    submit_score [] .nonNumeric "A" "d" = .error "Score must be a number" ∧
    ∃ out, submit_score [] (.intLike (-7)) "A" "d" = .ok out :=
  ⟨(submit_score_validation [] "A" "d").1, (submit_score_validation [] "A" "d").2 (-7)⟩

/-- C4 counterexample: for a 4 KB file the synthetic fallback analysis has an
*empty* onsets list (and an empty beats list): the estimated duration is
`4096 / 2^20 * 60 < 0.5` seconds, so `int(estimated_duration * 2) = 0` onsets
are generated — the fallback Feature Set is not fully populated as claimed. -/
theorem analyze_audio_tiny_file_empty_onsets :
    (analyze_audio false ⟨.ok (1, 1), 0, [], [], [], []⟩ "tiny.mp3" 4096
        (1/2) (fun _ => 1/2) (fun _ => 1/2) (fun _ => 0) (fun _ => 0)).onsets = [] ∧
    (analyze_audio false ⟨.ok (1, 1), 0, [], [], [], []⟩ "tiny.mp3" 4096
        (1/2) (fun _ => 1/2) (fun _ => 1/2) (fun _ => 0) (fun _ => 0)).beats = [] ∧
    (analyze_audio false ⟨.ok (1, 1), 0, [], [], [], []⟩ "tiny.mp3" 4096
        (1/2) (fun _ => 1/2) (fun _ => 1/2) (fun _ => 0) (fun _ => 0)).generationMethod =
      some "fallback" := by
  refine ⟨?_, ?_, rfl⟩ <;> with_unfolding_all rfl

/-- C4 (amended): when dependencies are missing or loading fails,
`analyze_audio` returns the synthetic generator's feature set, which is marked
`"fallback"`, has its duration derived from the file size (1 MB per minute),
a tempo in `[85, 120]`, a nonempty energy profile and exactly 50 notes; the
onsets list is nonempty provided the estimated duration is at least half a
second (for smaller files it is empty). -/
theorem analyze_audio_fallback (deps : Bool) (env : LibrosaEnv) (filename : String)
    (file_size : ℕ) (uTempo : ℚ) (uOnset uNote : ℕ → ℚ) (pick : ℕ → ℕ) (sinQ : ℚ → ℚ)
    (hu0 : 0 ≤ uTempo) (hu1 : uTempo ≤ 1)
    (hfail : deps = false ∨ ∃ e, env.load = .error e) :
    analyze_audio deps env filename file_size uTempo uOnset uNote pick sinQ =
      generate_fallback_analysis filename file_size uTempo uOnset uNote pick sinQ ∧
    (generate_fallback_analysis filename file_size uTempo uOnset uNote pick sinQ).generationMethod
      = some "fallback" ∧
    (generate_fallback_analysis filename file_size uTempo uOnset uNote pick sinQ).duration
      = ((file_size : ℚ) / (1024 * 1024)) * 60 ∧
    85 ≤ (generate_fallback_analysis filename file_size uTempo uOnset uNote pick sinQ).tempo ∧
    (generate_fallback_analysis filename file_size uTempo uOnset uNote pick sinQ).tempo ≤ 120 ∧
    (generate_fallback_analysis filename file_size uTempo uOnset uNote pick sinQ).energy_profile
      ≠ [] ∧
    (generate_fallback_analysis filename file_size uTempo uOnset uNote pick sinQ).notes.length
      = 50 ∧
    (1/2 ≤ (generate_fallback_analysis filename file_size uTempo uOnset uNote pick sinQ).duration →
      (generate_fallback_analysis filename file_size uTempo uOnset uNote pick sinQ).onsets ≠ []) := by
  refine ⟨?_, rfl, rfl, ?_, ?_, ?_, ?_, ?_⟩
  · by_cases hd : deps = false
    · simp [analyze_audio, hd]
    · rcases hfail with h | ⟨e, he⟩
      · exact absurd h hd
      · simp [analyze_audio, hd, he]
  · simp only [generate_fallback_analysis]
    unfold uniform
    nlinarith
  · simp only [generate_fallback_analysis]
    unfold uniform
    nlinarith
  · simp only [generate_fallback_analysis]
    simp
  · simp only [generate_fallback_analysis]
    unfold generate_placeholder_notes
    rw [sortByKey_length]
    simp
  · simp only [generate_fallback_analysis]
    intro hdur
    have hd2 : (1 : ℚ) ≤ (((file_size : ℚ) / (1024 * 1024)) * 60) * 2 := by linarith
    have hfl : 1 ≤ pyInt ((((file_size : ℚ) / (1024 * 1024)) * 60) * 2) := by
      unfold pyInt
      rw [if_pos (by linarith)]
      exact Int.le_floor.mpr (by exact_mod_cast hd2)
    apply List.ne_nil_of_length_pos
    rw [sortByKey_length]
    simp only [List.length_map, List.length_range]
    omega

/-- C4 witness: the fallback feature set for a 2 MB file with concrete oracle
draws. -/
theorem analyze_audio_fallback_witness :
    analyze_audio false ⟨.ok (1, 1), 0, [], [], [], []⟩ "s.mp3" 2097152
        (1/2) (fun _ => 1/2) (fun _ => 1/2) (fun _ => 0) (fun _ => 0) =
      generate_fallback_analysis "s.mp3" 2097152
        (1/2) (fun _ => 1/2) (fun _ => 1/2) (fun _ => 0) (fun _ => 0) ∧
    85 ≤ (generate_fallback_analysis "s.mp3" 2097152
        (1/2) (fun _ => 1/2) (fun _ => 1/2) (fun _ => 0) (fun _ => 0)).tempo ∧
    ((1 : ℚ)/2 ≤ (generate_fallback_analysis "s.mp3" 2097152
        (1/2) (fun _ => 1/2) (fun _ => 1/2) (fun _ => 0) (fun _ => 0)).duration →
      (generate_fallback_analysis "s.mp3" 2097152
        (1/2) (fun _ => 1/2) (fun _ => 1/2) (fun _ => 0) (fun _ => 0)).onsets ≠ []) := by
  have h := analyze_audio_fallback false ⟨.ok (1, 1), 0, [], [], [], []⟩ "s.mp3" 2097152
    (1/2) (fun _ => 1/2) (fun _ => 1/2) (fun _ => 0) (fun _ => 0)
    (by norm_num) (by norm_num) (Or.inl rfl)
  exact ⟨h.1, h.2.2.2.1, h.2.2.2.2.2.2.2⟩

/-- Fold invariant for the second minimum-spacing filter: starting from a
nonempty accumulator whose consecutive entries are at least `minIdx` apart,
the filter preserves both properties (it only appends a point whose distance
to the accumulator's last entry is at least `minIdx`). -/
theorem spacing_foldl_chain (minIdx : ℤ) (middle : List ℕ) :
    ∀ acc : List ℕ, acc ≠ [] →
      List.Chain' (fun (a b : ℕ) => minIdx ≤ (b : ℤ) - (a : ℤ)) acc →
      middle.foldl (spacingStep minIdx) acc ≠ [] ∧
      List.Chain' (fun (a b : ℕ) => minIdx ≤ (b : ℤ) - (a : ℤ))
        (middle.foldl (spacingStep minIdx) acc) := by
  induction middle with
  | nil => exact fun acc h hc => ⟨h, hc⟩
  | cons cp rest ih =>
      intro acc hne hch
      rw [List.foldl_cons]
      apply ih
      · unfold spacingStep
        split
        · simp
        · exact hne
      · unfold spacingStep
        split
        · rename_i hcond
          rw [List.chain'_append]
          refine ⟨hch, List.chain'_singleton _, ?_⟩
          intro x hx y hy
          rw [getLastD_spec acc 0 hne] at hx
          simp only [Option.mem_def, Option.some.injEq] at hx
          simp only [List.head?_cons, Option.mem_def, Option.some.injEq] at hy
          subst hx; subst hy
          exact hcond
        · exact hch

/-- C7 (amended): the second minimum-spacing filter guarantees the minimum
spacing between every pair of consecutive accepted boundaries *except the
last*: the final boundary (`change_points[-1]`) is appended unconditionally,
so the last pair may be closer than the minimum. -/
theorem minSpacingFilter_spacing (cps : List ℕ) (minIdx : ℤ) :
    List.Chain' (fun (a b : ℕ) => minIdx ≤ (b : ℤ) - (a : ℤ))
      ((minSpacingFilter cps minIdx).dropLast) ∧
    (minSpacingFilter cps minIdx).getLast? = some (cps.getLastD 0) := by
  unfold minSpacingFilter
  constructor
  · rw [List.dropLast_concat]
    exact (spacing_foldl_chain minIdx _ [0] (by simp) (List.chain'_singleton 0)).2
  · rw [List.getLast?_concat]

/-- C7 witness: the filtered set of a concrete change-point list obeys the
spacing bound on every pair but the last. -/
theorem minSpacingFilter_spacing_witness :
    List.Chain' (fun (a b : ℕ) => (30 : ℤ) ≤ (b : ℤ) - (a : ℤ))
      ((minSpacingFilter ([0, 64, 70, 100] : List ℕ) 30).dropLast) ∧
    (minSpacingFilter ([0, 64, 70, 100] : List ℕ) 30).getLast? = some 100 :=
  minSpacingFilter_spacing [0, 64, 70, 100] 30

/-- C7 counterexample: a non-degraded five-sample feature set of duration one
second has `min_indices_between_segments = 50`, yet the final change-point set
is `[0, 4]` — its (last) pair of consecutive boundaries is only 4 indices
apart, violating the claimed minimum spacing. -/
theorem filteredCps_last_pair_violation :
    filteredCpsOf
        { filename := "c.mp3", duration := 1, tempo := 100, sampleRate := 44100,
          generationMethod := none, beats := [], onsets := [],
          energy_profile := [(0, 1), (1/4, 1), (1/2, 1), (3/4, 1), (1, 1)],
          notes := [] } = some [0, 4] ∧
    (segCtx
        { filename := "c.mp3", duration := 1, tempo := 100, sampleRate := 44100,
          generationMethod := none, beats := [], onsets := [],
          energy_profile := [(0, 1), (1/4, 1), (1/2, 1), (3/4, 1), (1, 1)],
          notes := [] }).map SegCtx.minIdx = some 50 ∧
    ¬ ((50 : ℤ) ≤ (4 : ℤ) - (0 : ℤ)) := by
  refine ⟨?_, ?_, by decide⟩ <;> with_unfolding_all rfl

/-! ## Lemmas about the leaderboard sort and rank -/

theorem mem_insertScoreDesc (a x : ScoreRec) (l : List ScoreRec) :
    x ∈ insertScoreDesc a l ↔ x = a ∨ x ∈ l := by
  induction l with
  | nil => simp [insertScoreDesc]
  | cons b t ih =>
      rw [insertScoreDesc]
      split
      · simp [List.mem_cons]
      · simp only [List.mem_cons, ih]
        tauto

theorem pairwise_insertScoreDesc (a : ScoreRec) (l : List ScoreRec)
    (h : List.Pairwise (fun x y => y.score ≤ x.score) l) :
    List.Pairwise (fun x y => y.score ≤ x.score) (insertScoreDesc a l) := by
  induction l with
  | nil => simp [insertScoreDesc]
  | cons b t ih =>
      rw [List.pairwise_cons] at h
      rw [insertScoreDesc]
      split
      · rename_i hba
        rw [List.pairwise_cons]
        refine ⟨?_, List.pairwise_cons.mpr h⟩
        intro y hy
        rcases List.mem_cons.mp hy with rfl | hyt
        · exact hba
        · exact le_trans (h.1 y hyt) hba
      · rename_i hba
        rw [List.pairwise_cons]
        refine ⟨?_, ih h.2⟩
        intro y hy
        rcases (mem_insertScoreDesc a y t).mp hy with rfl | hyt
        · exact le_of_lt (lt_of_not_le hba)
        · exact h.1 y hyt

/-- The stable descending sort used by `submit_score` is sorted (descending,
non-strictly) by score. -/
theorem sortScoresDesc_sorted (l : List ScoreRec) :
    List.Pairwise (fun x y => y.score ≤ x.score) (sortScoresDesc l) := by
  induction l with
  | nil => exact List.Pairwise.nil
  | cons a t ih => exact pairwise_insertScoreDesc a _ ih

/-- Index of the first record equal to `new`, if any. -/
def firstEqIdx (new : ScoreRec) : List ScoreRec → Option ℕ
  | [] => none
  | r :: rest => if r = new then some 0 else (firstEqIdx new rest).map (· + 1)

theorem findRank_eq (new : ScoreRec) (l : List ScoreRec) (i : ℤ) :
    findRank new l i =
      match firstEqIdx new l with
      | some j => i + (j : ℤ) + 1
      | none => -1 := by
  induction l generalizing i with
  | nil => rfl
  | cons r rest ih =>
      rw [findRank, firstEqIdx]
      by_cases hr : r = new
      · rw [if_pos hr, if_pos hr]
        simp
      · rw [if_neg hr, if_neg hr, ih (i + 1)]
        cases h : firstEqIdx new rest with
        | none => simp [h]
        | some j => simp [h]; omega

theorem firstEqIdx_mem (new : ScoreRec) (l : List ScoreRec) (k : ℕ)
    (h : firstEqIdx new l = some k) : new ∈ l := by
  induction l generalizing k with
  | nil => cases h
  | cons r rest ih =>
      rw [firstEqIdx] at h
      by_cases hr : r = new
      · subst hr; exact List.mem_cons_self r rest
      · rw [if_neg hr] at h
        cases h2 : firstEqIdx new rest with
        | none => rw [h2] at h; cases h
        | some j => exact List.mem_cons_of_mem r (ih j h2)

/-- How inserting a record `a` different from `new` into a sorted leaderboard
moves the first index of `new`: it shifts by one exactly when `a` scores at
least `new.score` (so `a` lands before `new`), which is what makes the stable
sort rank of the appended record computable by counting. -/
theorem firstEqIdx_insertScoreDesc (a new : ScoreRec) (l : List ScoreRec) (k : ℕ)
    (hs : List.Pairwise (fun x y => y.score ≤ x.score) l)
    (ha : a ≠ new) (hk : firstEqIdx new l = some k) :
    firstEqIdx new (insertScoreDesc a l) =
      some (if new.score ≤ a.score then k + 1 else k) := by
  induction l generalizing k with
  | nil => cases hk
  | cons b t ih =>
      rw [List.pairwise_cons] at hs
      rw [insertScoreDesc]
      split
      · rename_i hba
        have hcond : new.score ≤ a.score := by
          rw [firstEqIdx] at hk
          by_cases hb : b = new
          · subst hb; exact le_trans (le_refl b.score) hba
          · rw [if_neg hb] at hk
            cases h2 : firstEqIdx new t with
            | none => rw [h2] at hk; cases hk
            | some j =>
                have hmem := firstEqIdx_mem new t j h2
                exact le_trans (hs.1 new hmem) hba
        rw [if_pos hcond, firstEqIdx, if_neg ha, hk]
        rfl
      · rename_i hba
        rw [firstEqIdx] at hk ⊢
        by_cases hb : b = new
        · rw [if_pos hb] at hk
          rw [if_pos hb]
          have : ¬ new.score ≤ a.score := by
            subst hb
            intro hc
            exact hba (le_trans hc (le_refl a.score))
          rw [if_neg this]
          exact hk
        · rw [if_neg hb] at hk ⊢
          cases h2 : firstEqIdx new t with
          | none => rw [h2] at hk; cases hk
          | some j =>
              rw [h2] at hk
              rw [ih j hs.2 h2]
              simp only [Option.map_some', Option.some.injEq] at hk ⊢
              split <;> omega

/-- The first index of the just-appended record `new` in the re-sorted list:
when no record equal to `new` was already stored, it is the number of stored
records scoring at least `new.score` — i.e. the (0-based) stable-sort position
of the appended record. -/
theorem firstEqIdx_sortScoresDesc_append (lb : List ScoreRec) (new : ScoreRec)
    (h : new ∉ lb) :
    firstEqIdx new (sortScoresDesc (lb ++ [new])) =
      some (lb.countP fun r => decide (new.score ≤ r.score)) := by
  induction lb with
  | nil =>
      rw [List.nil_append]
      simp [sortScoresDesc, insertScoreDesc, firstEqIdx]
  | cons a t ih =>
      rw [List.mem_cons, not_or] at h
      rw [List.cons_append, sortScoresDesc,
        firstEqIdx_insertScoreDesc a new _ _ (sortScoresDesc_sorted _)
          (fun he => h.1 he.symm) (ih h.2),
        List.countP_cons]
      by_cases hc : new.score ≤ a.score
      · rw [if_pos hc, if_pos (by simpa using hc)]
      · rw [if_neg hc, if_neg (by simpa using hc)]
        simp

/-- C8 (amended): a valid submission appends the new record, re-sorts the full
stored list descending by score with the stable sort, persists it untruncated
and responds with the top 10; the returned rank is the 1-based index of the
*first* record field-equal to the just-inserted one, which equals the inserted
record's stable-sort position (one plus the number of stored records scoring
at least the new score) whenever no identical record was already stored. -/
theorem submit_score_spec (lb : List ScoreRec) (n : ℤ) (initials date : String)
    (hnew : (⟨(initials.take 3).toUpper, n, date⟩ : ScoreRec) ∉ lb) :
    submit_score lb (.intLike n) initials date =
      .ok (sortScoresDesc (lb ++ [⟨(initials.take 3).toUpper, n, date⟩]),
           (sortScoresDesc (lb ++ [⟨(initials.take 3).toUpper, n, date⟩])).take 10,
           (lb.countP fun r => decide (n ≤ r.score)) + 1) ∧
    List.Pairwise (fun x y => y.score ≤ x.score)
      (sortScoresDesc (lb ++ [⟨(initials.take 3).toUpper, n, date⟩])) := by
  refine ⟨?_, sortScoresDesc_sorted _⟩
  unfold submit_score
  dsimp only
  rw [findRank_eq, firstEqIdx_sortScoresDesc_append lb _ hnew]
  simp

/-- C8 counterexample: submitting a record identical to one already stored
(same initials, score and date) returns rank 1 — the index of the *old* copy —
while the 1-based stable-sort position of the just-inserted record is 2. -/
theorem submit_score_duplicate_rank :
    submit_score [⟨"AAA", 50, "2026-01-01"⟩] (.intLike 50) "AAA" "2026-01-01" =
      .ok ([⟨"AAA", 50, "2026-01-01"⟩, ⟨"AAA", 50, "2026-01-01"⟩],
           [⟨"AAA", 50, "2026-01-01"⟩, ⟨"AAA", 50, "2026-01-01"⟩], 1) ∧
    (([⟨"AAA", 50, "2026-01-01"⟩] : List ScoreRec).countP
        (fun r => decide ((50 : ℤ) ≤ r.score)) : ℤ) + 1 = 2 ∧
    (1 : ℤ) ≠ 2 := by
  refine ⟨by with_unfolding_all rfl, by decide, by decide⟩

set_option maxRecDepth 4000 in
/-- C8 witness: the specified scenario.  Starting from the seeded leaderboard
(`BTF 100`), submitting 100, 500 and 300 leaves the stored order
500, 300, 100, 100, and the rank returned for the 300 submission is 2. -/
theorem submit_score_spec_witness :
    (⟨"CCC", 300, "d3"⟩ : ScoreRec) ∉
      ([⟨"BBB", 500, "d2"⟩, ⟨"BTF", 100, "d0"⟩, ⟨"AAA", 100, "d1"⟩] : List ScoreRec) ∧
    submit_score [defaultSeedScore "d0"] (.intLike 100) "AAA" "d1" =
      .ok ([⟨"BTF", 100, "d0"⟩, ⟨"AAA", 100, "d1"⟩],
           [⟨"BTF", 100, "d0"⟩, ⟨"AAA", 100, "d1"⟩], 2) ∧
    submit_score [⟨"BTF", 100, "d0"⟩, ⟨"AAA", 100, "d1"⟩] (.intLike 500) "BBB" "d2" =
      .ok ([⟨"BBB", 500, "d2"⟩, ⟨"BTF", 100, "d0"⟩, ⟨"AAA", 100, "d1"⟩],
           [⟨"BBB", 500, "d2"⟩, ⟨"BTF", 100, "d0"⟩, ⟨"AAA", 100, "d1"⟩], 1) ∧
    submit_score [⟨"BBB", 500, "d2"⟩, ⟨"BTF", 100, "d0"⟩, ⟨"AAA", 100, "d1"⟩]
        (.intLike 300) "CCC" "d3" =
      .ok (sortScoresDesc
            ([⟨"BBB", 500, "d2"⟩, ⟨"BTF", 100, "d0"⟩, ⟨"AAA", 100, "d1"⟩] ++
              [⟨"CCC", 300, "d3"⟩]),
           (sortScoresDesc
            ([⟨"BBB", 500, "d2"⟩, ⟨"BTF", 100, "d0"⟩, ⟨"AAA", 100, "d1"⟩] ++
              [⟨"CCC", 300, "d3"⟩])).take 10,
           (([⟨"BBB", 500, "d2"⟩, ⟨"BTF", 100, "d0"⟩, ⟨"AAA", 100, "d1"⟩] : List ScoreRec).countP
              fun r => decide ((300 : ℤ) ≤ r.score)) + 1) ∧
    sortScoresDesc
        ([⟨"BBB", 500, "d2"⟩, ⟨"BTF", 100, "d0"⟩, ⟨"AAA", 100, "d1"⟩] ++
          [⟨"CCC", 300, "d3"⟩]) =
      [⟨"BBB", 500, "d2"⟩, ⟨"CCC", 300, "d3"⟩, ⟨"BTF", 100, "d0"⟩, ⟨"AAA", 100, "d1"⟩] ∧
    (([⟨"BBB", 500, "d2"⟩, ⟨"BTF", 100, "d0"⟩, ⟨"AAA", 100, "d1"⟩] : List ScoreRec).countP
        (fun r => decide ((300 : ℤ) ≤ r.score)) : ℤ) + 1 = 2 := by
  refine ⟨by decide, by with_unfolding_all rfl, by with_unfolding_all rfl, ?_,
    by with_unfolding_all rfl, by decide⟩
  have key := (submit_score_spec [⟨"BBB", 500, "d2"⟩, ⟨"BTF", 100, "d0"⟩, ⟨"AAA", 100, "d1"⟩]
    300 "CCC" "d3" (by with_unfolding_all decide)).1
  have hcc : ("CCC".take 3).toUpper = "CCC" := by with_unfolding_all rfl
  rw [hcc] at key
  exact key

/-! ## Lemmas for the segment-detection invariant -/

theorem getD_eq_get {α : Type} (l : List α) (d : α) (i : ℕ) (h : i < l.length) :
    l.getD i d = l.get ⟨i, h⟩ := by
  rw [List.getD_eq_get?, List.get?_eq_get h]
  rfl

theorem getD_zero_of_head? {α : Type} (l : List α) (d a : α) (h : l.head? = some a) :
    l.getD 0 d = a := by
  cases l with
  | nil => cases h
  | cons x t =>
      simp only [List.head?_cons, Option.some.injEq] at h
      simp [List.getD, h]

theorem getD_last_of_getLast? {α : Type} (l : List α) (d a : α) (h : l.getLast? = some a) :
    l.getD (l.length - 1) d = a := by
  have hne : l ≠ [] := by
    intro he
    subst he
    cases h
  have hlt : l.length - 1 < l.length := by
    have := List.length_pos.mpr hne
    omega
  rw [getD_eq_get l d _ hlt, ← List.getLast_eq_get l hne]
  rw [List.getLast?_eq_getLast l hne] at h
  exact Option.some.inj h

theorem medianFilter_length (size : ℕ) (l : List ℚ) :
    (medianFilter size l).length = l.length := by
  simp [medianFilter]

theorem scanStep_eq_or (s : List ℚ) (w : ℕ) (m : ℤ) (t : ℚ) (cps : List ℕ) (i : ℕ) :
    scanStep s w m t cps i = cps ∨ scanStep s w m t cps i = cps ++ [i] := by
  unfold scanStep
  split
  · exact Or.inl rfl
  · dsimp only
    split
    · exact Or.inr rfl
    · exact Or.inl rfl

theorem scan_foldl_mem (s : List ℚ) (w : ℕ) (m : ℤ) (t : ℚ) (idxs : List ℕ) :
    ∀ (acc : List ℕ) (x : ℕ), x ∈ idxs.foldl (scanStep s w m t) acc → x ∈ acc ∨ x ∈ idxs := by
  induction idxs with
  | nil => exact fun acc x hx => Or.inl hx
  | cons i rest ih =>
      intro acc x hx
      rw [List.foldl_cons] at hx
      rcases ih _ x hx with h | h
      · rcases scanStep_eq_or s w m t acc i with he | he <;> rw [he] at h
        · exact Or.inl h
        · rcases List.mem_append.mp h with h1 | h1
          · exact Or.inl h1
          · simp only [List.mem_singleton] at h1
            subst h1
            exact Or.inr (List.mem_cons_self _ _)
      · exact Or.inr (List.mem_cons_of_mem _ h)

theorem mem_scanChangePoints_bound (s : List ℚ) (w : ℕ) (m : ℤ) (t : ℚ) (hw : 1 ≤ w)
    (x : ℕ) (hx : x ∈ scanChangePoints s w m t) : x ≤ s.length - 1 := by
  unfold scanChangePoints at hx
  rcases scan_foldl_mem s w m t _ [] x hx with h | h
  · cases h
  · rw [List.mem_range'_1] at h
    omega

theorem mem_addEndpoints (cps : List ℕ) (lastIdx x : ℕ) (hx : x ∈ addEndpoints cps lastIdx) :
    x ∈ cps ∨ x = 0 ∨ x = lastIdx := by
  unfold addEndpoints at hx
  dsimp only at hx
  by_cases h0 : 0 ∈ cps
  · rw [if_pos h0] at hx
    by_cases hl : lastIdx ∈ cps
    · rw [if_pos hl] at hx
      exact Or.inl hx
    · rw [if_neg hl] at hx
      rcases List.mem_append.mp hx with h | h
      · exact Or.inl h
      · simp only [List.mem_singleton] at h
        tauto
  · rw [if_neg h0] at hx
    by_cases hl : lastIdx ∈ 0 :: cps
    · rw [if_pos hl] at hx
      rcases List.mem_cons.mp hx with h | h <;> tauto
    · rw [if_neg hl] at hx
      rcases List.mem_append.mp hx with h | h
      · rcases List.mem_cons.mp h with h2 | h2 <;> tauto
      · simp only [List.mem_singleton] at h
        tauto

theorem zero_mem_addEndpoints (cps : List ℕ) (lastIdx : ℕ) : 0 ∈ addEndpoints cps lastIdx := by
  unfold addEndpoints
  dsimp only
  by_cases h0 : 0 ∈ cps
  · rw [if_pos h0]
    split_ifs with hl
    · exact h0
    · exact List.mem_append.mpr (Or.inl h0)
  · rw [if_neg h0]
    split_ifs with hl
    · exact List.mem_cons_self _ _
    · exact List.mem_append.mpr (Or.inl (List.mem_cons_self _ _))

theorem lastIdx_mem_addEndpoints (cps : List ℕ) (lastIdx : ℕ) :
    lastIdx ∈ addEndpoints cps lastIdx := by
  unfold addEndpoints
  dsimp only
  by_cases h0 : 0 ∈ cps
  · rw [if_pos h0]
    split_ifs with hl
    · exact hl
    · simp
  · rw [if_neg h0]
    split_ifs with hl
    · exact hl
    · simp

theorem mem_insertLe {α : Type} [LinearOrder α] (a x : α) (l : List α) :
    x ∈ insertLe a l ↔ x = a ∨ x ∈ l := by
  induction l with
  | nil => simp [insertLe]
  | cons b t ih =>
      rw [insertLe]
      split
      · simp [List.mem_cons]
      · simp only [List.mem_cons, ih]
        tauto

theorem mem_sortLe {α : Type} [LinearOrder α] (x : α) (l : List α) :
    x ∈ sortLe l ↔ x ∈ l := by
  induction l with
  | nil => simp [sortLe]
  | cons a t ih =>
      rw [sortLe, mem_insertLe, ih]
      simp [List.mem_cons]

theorem pairwise_insertLe {α : Type} [LinearOrder α] (a : α) (l : List α)
    (h : List.Pairwise (· ≤ ·) l) : List.Pairwise (· ≤ ·) (insertLe a l) := by
  induction l with
  | nil => simp [insertLe]
  | cons b t ih =>
      rw [List.pairwise_cons] at h
      rw [insertLe]
      split
      · rename_i hab
        rw [List.pairwise_cons]
        refine ⟨?_, List.pairwise_cons.mpr h⟩
        intro y hy
        rcases List.mem_cons.mp hy with rfl | hyt
        · exact hab
        · exact le_trans hab (h.1 y hyt)
      · rename_i hab
        rw [List.pairwise_cons]
        refine ⟨?_, ih h.2⟩
        intro y hy
        rcases (mem_insertLe a y t).mp hy with rfl | hyt
        · exact le_of_lt (lt_of_not_le hab)
        · exact h.1 y hyt

theorem sortLe_sorted {α : Type} [LinearOrder α] (l : List α) :
    List.Pairwise (· ≤ ·) (sortLe l) := by
  induction l with
  | nil => exact List.Pairwise.nil
  | cons a t ih => exact pairwise_insertLe a _ ih

theorem getLast?_eq_max_of_sorted (m : ℕ) :
    ∀ l : List ℕ, List.Pairwise (· ≤ ·) l → m ∈ l → (∀ x ∈ l, x ≤ m) →
      l.getLast? = some m := by
  intro l
  induction l with
  | nil => intro _ hm _; cases hm
  | cons a t ih =>
      intro hs hm hb
      cases t with
      | nil =>
          rcases List.mem_singleton.mp hm with rfl
          rfl
      | cons b t2 =>
          rw [List.getLast?_cons_cons]
          rw [List.pairwise_cons] at hs
          apply ih hs.2
          · rcases List.mem_cons.mp hm with rfl | h
            · have hbm : b ≤ m := hb b (List.mem_cons_of_mem _ (List.mem_cons_self _ _))
              have hmb : m ≤ b := hs.1 b (List.mem_cons_self _ _)
              have : b = m := le_antisymm hbm hmb
              rw [← this]
              exact List.mem_cons_self _ _
            · exact h
          · intro x hx
            exact hb x (List.mem_cons_of_mem _ hx)

theorem spacingStep_eq_or (m : ℤ) (acc : List ℕ) (cp : ℕ) :
    spacingStep m acc cp = acc ∨ spacingStep m acc cp = acc ++ [cp] := by
  unfold spacingStep
  split
  · exact Or.inr rfl
  · exact Or.inl rfl

theorem spacing_foldl_props (m : ℤ) (middle : List ℕ) :
    ∀ acc : List ℕ, acc ≠ [] →
      (middle.foldl (spacingStep m) acc).head? = acc.head? ∧
      (∀ x ∈ middle.foldl (spacingStep m) acc, x ∈ acc ∨ x ∈ middle) ∧
      middle.foldl (spacingStep m) acc ≠ [] := by
  induction middle with
  | nil => exact fun acc h => ⟨rfl, fun x hx => Or.inl hx, h⟩
  | cons cp rest ih =>
      intro acc hne
      rw [List.foldl_cons]
      have hstepne : spacingStep m acc cp ≠ [] := by
        rcases spacingStep_eq_or m acc cp with he | he <;> rw [he]
        · exact hne
        · simp
      obtain ⟨h1, h2, h3⟩ := ih (spacingStep m acc cp) hstepne
      refine ⟨?_, ?_, h3⟩
      · rw [h1]
        rcases spacingStep_eq_or m acc cp with he | he <;> rw [he] <;>
          (cases acc with
            | nil => first | rfl | exact absurd rfl hne
            | cons a t => rfl)
      · intro x hx
        rcases h2 x hx with h | h
        · rcases spacingStep_eq_or m acc cp with he | he <;> rw [he] at h
          · exact Or.inl h
          · rcases List.mem_append.mp h with h4 | h4
            · exact Or.inl h4
            · simp only [List.mem_singleton] at h4
              subst h4
              exact Or.inr (List.mem_cons_self _ _)
        · exact Or.inr (List.mem_cons_of_mem _ h)

/-- Structure of the final change-point list computed by `detect_segments`:
it starts at index `0`, ends at the final index, is non-decreasing, stays
within bounds and has at least two entries. -/
theorem filteredCps_spec (c : SegCtx) (hne : c.smoothed ≠ [])
    (hw : 1 ≤ c.window) (hm : 0 ≤ c.minIdx) :
    (filteredCps c).head? = some 0 ∧
    (filteredCps c).getLast? = some (c.smoothed.length - 1) ∧
    List.Chain' (· ≤ ·) (filteredCps c) ∧
    (∀ x ∈ filteredCps c, x ≤ c.smoothed.length - 1) ∧
    2 ≤ (filteredCps c).length := by
  have hb1 : ∀ x ∈ scanChangePoints c.smoothed c.window c.minIdx c.changeThr,
      x ≤ c.smoothed.length - 1 :=
    fun x hx => mem_scanChangePoints_bound _ _ _ _ hw x hx
  have hb2 : ∀ x ∈ addEndpoints (scanChangePoints c.smoothed c.window c.minIdx c.changeThr)
      (c.smoothed.length - 1), x ≤ c.smoothed.length - 1 := by
    intro x hx
    rcases mem_addEndpoints _ _ x hx with h | h | h
    · exact hb1 x h
    · omega
    · omega
  set ae := addEndpoints (scanChangePoints c.smoothed c.window c.minIdx c.changeThr)
    (c.smoothed.length - 1) with hae
  set sc := sortLe ae with hsc
  have hsc_mem : ∀ x, x ∈ sc ↔ x ∈ ae := fun x => mem_sortLe x ae
  have hsc_bound : ∀ x ∈ sc, x ≤ c.smoothed.length - 1 :=
    fun x hx => hb2 x ((hsc_mem x).mp hx)
  have hsc_last : sc.getLast? = some (c.smoothed.length - 1) :=
    getLast?_eq_max_of_sorted _ sc (sortLe_sorted ae)
      ((hsc_mem _).mpr (lastIdx_mem_addEndpoints _ _)) hsc_bound
  have hsc_ne : sc ≠ [] := by
    intro hnil
    rw [hnil] at hsc_last
    cases hsc_last
  have hsc_lastD : sc.getLastD 0 = c.smoothed.length - 1 := by
    rw [getLastD_spec sc 0 hsc_ne] at hsc_last
    exact Option.some.inj hsc_last
  have hfc : filteredCps c = minSpacingFilter sc c.minIdx := rfl
  obtain ⟨hhead, hmem, hfne⟩ :=
    spacing_foldl_props c.minIdx ((sc.drop 1).dropLast) [0] (by simp)
  obtain ⟨hfne2, hfchain⟩ :=
    spacing_foldl_chain c.minIdx ((sc.drop 1).dropLast) [0] (by simp)
      (List.chain'_singleton 0)
  set f := ((sc.drop 1).dropLast).foldl (spacingStep c.minIdx) [0] with hf
  have hf_bound : ∀ x ∈ f, x ≤ c.smoothed.length - 1 := by
    intro x hx
    rcases hmem x hx with h | h
    · simp only [List.mem_singleton] at h
      omega
    · exact hsc_bound x (List.drop_subset 1 sc (List.dropLast_subset _ h))
  have hexp : filteredCps c = f ++ [sc.getLastD 0] := rfl
  have hchainle : List.Chain' (· ≤ ·) f := by
    apply List.Chain'.imp ?_ hfchain
    intro a b hab
    omega
  refine ⟨?_, ?_, ?_, ?_, ?_⟩
  · rw [hexp]
    cases hfc : f with
    | nil => exact absurd hfc hfne
    | cons a t =>
        rw [hfc] at hhead
        rw [List.cons_append, List.head?_cons]
        simpa using hhead
  · rw [hexp, List.getLast?_concat, hsc_lastD]
  · rw [hexp, List.chain'_append]
    refine ⟨hchainle, List.chain'_singleton _, ?_⟩
    intro x hx y hy
    simp only [List.head?_cons, Option.mem_def, Option.some.injEq] at hy
    subst hy
    have hxf : x ∈ f := by
      have hne2 : f ≠ [] := hfne
      rw [List.getLast?_eq_getLast f hne2] at hx
      simp only [Option.mem_def, Option.some.injEq] at hx
      rw [← hx]
      exact List.getLast_mem hne2
    rw [hsc_lastD]
    exact hf_bound x hxf
  · rw [hexp]
    intro x hx
    rcases List.mem_append.mp hx with h | h
    · exact hf_bound x h
    · simp only [List.mem_singleton] at h
      subst h
      rw [hsc_lastD]
  · rw [hexp, List.length_append, List.length_singleton]
    have := List.length_pos.mpr hfne
    omega

/-- The quantities `segCtx` produces for a well-formed non-degraded feature
set: the context is computed (no division by zero is reached), its times are
the profile's times, smoothing preserves the profile length, the window is at
least 30 and the minimum index spacing is nonnegative. -/
theorem segCtx_spec (fs : FeatureSet) (hep : fs.energy_profile ≠ [])
    (hdur : 0 < fs.duration) (hmax : 0 < maxList (fs.energy_profile.map Prod.snd)) :
    ∃ c : SegCtx, segCtx fs = some c ∧
      c.times = fs.energy_profile.map Prod.fst ∧
      c.smoothed.length = fs.energy_profile.length ∧
      30 ≤ c.window ∧
      0 ≤ c.minIdx := by
  have hvne : fs.energy_profile.map Prod.snd ≠ [] := by
    simp [hep]
  have hnorm : normalizeEnergy (fs.energy_profile.map Prod.snd) =
      some ((fs.energy_profile.map Prod.snd).map
        (fun e => e / maxList (fs.energy_profile.map Prod.snd))) := by
    unfold normalizeEnergy
    rw [if_neg hvne, if_neg (ne_of_gt hmax)]
  have hdne : ¬ fs.duration = 0 := by
    intro h
    rw [h] at hdur
    exact lt_irrefl 0 hdur
  have hlenne : ¬ (medianFilter 9 (medianFilter 15 ((fs.energy_profile.map Prod.snd).map
      (fun e => e / maxList (fs.energy_profile.map Prod.snd))))).length = 0 := by
    rw [medianFilter_length, medianFilter_length, List.length_map, List.length_map]
    intro h
    exact hep (List.length_eq_zero.mp h)
  unfold segCtx
  dsimp only
  rw [hnorm]
  simp only [Option.some_bind]
  rw [if_neg hlenne, if_neg hdne]
  refine ⟨_, rfl, rfl, ?_, ?_, ?_⟩
  · rw [medianFilter_length, medianFilter_length, List.length_map, List.length_map]
  · exact le_max_left 30 _
  · have harg : 0 ≤ 10 * ((fs.energy_profile.map Prod.fst).length : ℚ) / fs.duration := by
      apply div_nonneg
      · positivity
      · exact le_of_lt hdur
    unfold pyInt
    rw [if_pos harg]
    exact Int.floor_nonneg.mpr harg

/-- The invariant the specification states for segment lists: nonempty,
contiguous and non-overlapping (each segment's end is the next segment's
start), ordered by start time, each segment's start at most its end, first
segment starting at 0 and last segment ending at `d`. -/
def SegInvariant (segs : List Segment) (d : ℚ) : Prop :=
  segs ≠ [] ∧
  List.Chain' (fun a b => a.stop = b.start) segs ∧
  List.Chain' (fun a b => a.start ≤ b.start) segs ∧
  (∀ s ∈ segs, s.start ≤ s.stop) ∧
  segs.head?.map Segment.start = some 0 ∧
  segs.getLast?.map Segment.stop = some d

theorem chain'_map_range {β : Type} (R : β → β → Prop) (k : ℕ) (F : ℕ → β)
    (h : ∀ i, i + 1 < k → R (F i) (F (i + 1))) :
    List.Chain' R ((List.range k).map F) := by
  rw [List.chain'_iff_get]
  intro i hi
  simp only [List.length_map, List.length_range] at hi
  rw [List.get_map, List.get_map]
  simp only [List.get_range]
  exact h i (by omega)

theorem head?_map_range {β : Type} (k : ℕ) (F : ℕ → β) (hk : 1 ≤ k) :
    ((List.range k).map F).head? = some (F 0) := by
  cases k with
  | zero => omega
  | succ k2 =>
      rw [List.range_succ_eq_map]
      rfl

theorem getLast?_map_range {β : Type} (k : ℕ) (F : ℕ → β) (hk : 1 ≤ k) :
    ((List.range k).map F).getLast? = some (F (k - 1)) := by
  have hne : (List.range k).map F ≠ [] := by
    simp only [ne_eq, List.map_eq_nil, List.range_eq_nil]
    omega
  rw [List.getLast?_eq_getLast _ hne, List.getLast_eq_get]
  simp only [List.length_map, List.length_range]
  rw [List.get_map]
  simp only [List.get_range]

theorem pairwise_le_getD_mono {α : Type} [LinearOrder α] (d : α) (l : List α)
    (hp : List.Pairwise (· ≤ ·) l) (i j : ℕ) (hij : i ≤ j) (hj : j < l.length) :
    l.getD i d ≤ l.getD j d := by
  rcases eq_or_lt_of_le hij with rfl | hlt
  · exact le_refl _
  · rw [getD_eq_get l d i (lt_trans hlt hj), getD_eq_get l d j hj]
    exact List.pairwise_iff_get.mp hp ⟨i, lt_trans hlt hj⟩ ⟨j, hj⟩ hlt

/-- The segment list built from a change-point list satisfies the
specification's invariant, given a chain of in-bounds change points from `0`
to the final index and sorted times starting at 0 and ending at `d`. -/
theorem buildSegments_spec (c : SegCtx) (cps : List ℕ) (d : ℚ)
    (hlen2 : 2 ≤ cps.length)
    (hchain : List.Chain' (· ≤ ·) cps)
    (hhead : cps.head? = some 0)
    (hlast : cps.getLast? = some (c.times.length - 1))
    (hbound : ∀ x ∈ cps, x ≤ c.times.length - 1)
    (htne : c.times ≠ [])
    (hsorted : List.Pairwise (· ≤ ·) c.times)
    (hthead : c.times.head? = some 0)
    (htlast : c.times.getLast? = some d) :
    SegInvariant (buildSegments c cps) d := by
  have hpcps : List.Pairwise (· ≤ ·) cps := List.chain'_iff_pairwise.mp hchain
  have htlen : 0 < c.times.length := List.length_pos.mpr htne
  have hcpD : ∀ j, j < cps.length → cps.getD j 0 ≤ c.times.length - 1 := by
    intro j hj
    rw [getD_eq_get cps 0 j hj]
    exact hbound _ (List.get_mem cps j hj)
  have hstep : ∀ i, i + 1 < cps.length →
      c.times.getD (cps.getD i 0) 0 ≤ c.times.getD (cps.getD (i + 1) 0) 0 := by
    intro i hi
    apply pairwise_le_getD_mono (0 : ℚ) c.times hsorted
    · exact pairwise_le_getD_mono 0 cps hpcps i (i + 1) (by omega) hi
    · have := hcpD (i + 1) hi
      omega
  unfold buildSegments
  dsimp only
  refine ⟨?_, ?_, ?_, ?_, ?_, ?_⟩
  · apply List.ne_nil_of_length_pos
    simp only [List.length_map, List.length_range]
    omega
  · exact chain'_map_range _ _ _ (fun i hi => rfl)
  · apply chain'_map_range
    intro i hi
    dsimp only
    exact hstep i (by omega)
  · intro s hs
    rcases List.mem_map.mp hs with ⟨i, hi, rfl⟩
    rw [List.mem_range] at hi
    dsimp only
    exact hstep i (by omega)
  · rw [head?_map_range _ _ (by omega)]
    dsimp only [Option.map_some']
    rw [getD_zero_of_head? cps 0 0 hhead, getD_zero_of_head? c.times 0 0 hthead]
  · rw [getLast?_map_range _ _ (by omega)]
    dsimp only [Option.map_some']
    have hk : cps.length - 1 - 1 + 1 = cps.length - 1 := by omega
    rw [hk, getD_last_of_getLast? cps 0 _ hlast,
      getD_last_of_getLast? c.times 0 d htlast]

/-- C1 (amended): the detector's segment invariant (contiguous,
non-overlapping, ordered by start, start ≤ end per segment, first start 0,
last end = duration) holds in the degraded path whenever the duration is at
least 100 seconds, and in the numeric path for every well-formed feature set:
nonempty energy profile with sorted timestamps starting at 0 and ending at
`duration`, positive duration and positive maximum energy. -/
theorem detect_segments_invariant (deps : Bool) (fs : FeatureSet) :
    ((deps = false ∨ fs.generationMethod = some "fallback") → 100 ≤ fs.duration →
      detect_segments deps fs = some (generate_fallback_segments fs.duration) ∧
      SegInvariant (generate_fallback_segments fs.duration) fs.duration) ∧
    (¬(deps = false ∨ fs.generationMethod = some "fallback") →
      fs.energy_profile ≠ [] →
      List.Pairwise (· ≤ ·) (fs.energy_profile.map Prod.fst) →
      (fs.energy_profile.map Prod.fst).head? = some 0 →
      (fs.energy_profile.map Prod.fst).getLast? = some fs.duration →
      0 < fs.duration →
      0 < maxList (fs.energy_profile.map Prod.snd) →
      ∃ segs, detect_segments deps fs = some segs ∧ SegInvariant segs fs.duration) := by
  constructor
  · intro hdeg hd
    constructor
    · unfold detect_segments
      rw [if_pos hdeg]
    · have a1 : min (fs.duration * 0.15) 30 ≤ fs.duration * 0.15 := min_le_left _ _
      have a2 : min (fs.duration * 0.2) 45 ≤ fs.duration * 0.2 := min_le_left _ _
      have a3 : min (fs.duration * 0.1) 30 ≤ fs.duration * 0.1 := min_le_left _ _
      have n1 : (0 : ℚ) ≤ min (fs.duration * 0.15) 30 :=
        le_min (by linarith) (by norm_num)
      have n2 : (0 : ℚ) ≤ min (fs.duration * 0.2) 45 :=
        le_min (by linarith) (by norm_num)
      have n3 : (0 : ℚ) ≤ min (fs.duration * 0.1) 30 :=
        le_min (by linarith) (by norm_num)
      unfold SegInvariant generate_fallback_segments
      dsimp only
      refine ⟨by simp, ?_, ?_, ?_, rfl, rfl⟩
      · simp [List.chain'_cons]
      · simp only [List.chain'_cons, List.chain'_singleton, and_true]
        refine ⟨?_, ?_, ?_, ?_, ?_, ?_, ?_⟩ <;> linarith
      · intro s hs
        simp only [List.mem_cons, List.not_mem_nil, or_false] at hs
        rcases hs with rfl | rfl | rfl | rfl | rfl | rfl | rfl | rfl <;> dsimp only <;> linarith
  · intro hndeg hep hsorted hthead htlast hdur hmax
    obtain ⟨c, hc, hct, hcl, hcw, hcm⟩ := segCtx_spec fs hep hdur hmax
    have hsm_ne : c.smoothed ≠ [] := by
      apply List.ne_nil_of_length_pos
      rw [hcl]
      exact List.length_pos.mpr hep
    obtain ⟨fh, fl, fch, fb, fl2⟩ := filteredCps_spec c hsm_ne (by omega) hcm
    have hlen_eq : c.smoothed.length = c.times.length := by
      rw [hcl, hct, List.length_map]
    rw [hlen_eq] at fl fb
    refine ⟨buildSegments c (filteredCps c), ?_, ?_⟩
    · unfold detect_segments
      rw [if_neg hndeg, hc]
      rfl
    · refine buildSegments_spec c (filteredCps c) fs.duration fl2 fch fh fl fb ?_ ?_ ?_ ?_
      · rw [hct]
        simp [hep]
      · rw [hct]
        exact hsorted
      · rw [hct]
        exact hthead
      · rw [hct]
        exact htlast

/-- C1 counterexample: the invariant fails as universally stated.  For a
degraded feature set of duration 20 the template's seventh segment runs
backwards (start 19, end 15), violating ordering and `start ≤ end`; and for a
non-degraded feature set whose energy timestamps end at 4 while the metadata
duration is 7, the last segment ends at 4, not at the duration. -/
theorem detect_segments_invariant_violations :
    detect_segments true
        { filename := "a.mp3", duration := 20, tempo := 100, sampleRate := 44100,
          generationMethod := some "fallback", beats := [], onsets := [],
          energy_profile := [], notes := [] } =
      some (generate_fallback_segments 20) ∧
    (∃ s ∈ generate_fallback_segments 20, s.stop < s.start) ∧
    detect_segments true
        { filename := "b.mp3", duration := 7, tempo := 100, sampleRate := 44100,
          generationMethod := none, beats := [], onsets := [],
          energy_profile := [(0, 1), (1, 1), (2, 1), (3, 1), (4, 1)], notes := [] } =
      some [⟨"intro", 0, 4, some 1⟩] ∧
    (4 : ℚ) ≠ 7 := by
  have htemp : generate_fallback_segments 20 =
      [⟨"intro", 0, 3, none⟩, ⟨"verse", 3, 7, none⟩, ⟨"chorus", 7, 10, none⟩,
       ⟨"verse", 10, 14, none⟩, ⟨"chorus", 14, 17, none⟩, ⟨"bridge", 17, 19, none⟩,
       ⟨"chorus", 19, 15, none⟩, ⟨"outro", 15, 20, none⟩] := by
    with_unfolding_all rfl
  refine ⟨rfl, ⟨⟨"chorus", 19, 15, none⟩, ?_, by norm_num⟩, by with_unfolding_all rfl, by decide⟩
  rw [htemp]
  simp

/-- C1 witness: the invariant at a 150-second degraded feature set and at a
concrete well-formed numeric feature set. -/
theorem detect_segments_invariant_witness :
    (detect_segments true
        { filename := "a.mp3", duration := 150, tempo := 100, sampleRate := 44100,
          generationMethod := some "fallback", beats := [], onsets := [],
          energy_profile := [], notes := [] } =
      some (generate_fallback_segments 150) ∧
     SegInvariant (generate_fallback_segments 150) 150) ∧
    (∃ segs, detect_segments true
        { filename := "b.mp3", duration := 4, tempo := 100, sampleRate := 44100,
          generationMethod := none, beats := [], onsets := [],
          energy_profile := [(0, 1), (1, 1), (2, 1), (3, 1), (4, 1)], notes := [] } =
      some segs ∧ SegInvariant segs 4) := by
  constructor
  · exact (detect_segments_invariant true
      { filename := "a.mp3", duration := 150, tempo := 100, sampleRate := 44100,
        generationMethod := some "fallback", beats := [], onsets := [],
        energy_profile := [], notes := [] }).1 (Or.inr rfl) (by norm_num)
  · exact (detect_segments_invariant true
      { filename := "b.mp3", duration := 4, tempo := 100, sampleRate := 44100,
        generationMethod := none, beats := [], onsets := [],
        energy_profile := [(0, 1), (1, 1), (2, 1), (3, 1), (4, 1)], notes := [] }).2
      (by simp) (by decide) (by decide) (by decide) (by decide) (by decide) (by decide)

/-- C5 (amended): for a non-degraded feature set whose sliding-window scan
accepts no interior change point, `detect_segments` returns exactly *one*
segment, labeled `"intro"` (the `i == 0` branch wins over the last-segment
branch), spanning from the first to the last energy timestamp — not two
segments intro and outro. -/
theorem detect_segments_no_interior_cp (fs : FeatureSet) (c : SegCtx)
    (hfb : fs.generationMethod ≠ some "fallback")
    (hc : segCtx fs = some c)
    (hscan : scanChangePoints c.smoothed c.window c.minIdx c.changeThr = [])
    (h2 : 2 ≤ c.smoothed.length)
    (hlen : c.times.length = c.smoothed.length)
    (hthead : c.times.head? = some 0)
    (htlast : c.times.getLast? = some fs.duration) :
    ∃ eVal : Option ℚ, detect_segments true fs = some [⟨"intro", 0, fs.duration, eVal⟩] := by
  have hndeg : ¬ (true = false ∨ fs.generationMethod = some "fallback") := by
    simp [hfb]
  have hn1 : ¬ (c.smoothed.length - 1 = 0) := by omega
  have hae : addEndpoints [] (c.smoothed.length - 1) = [0, c.smoothed.length - 1] := by
    unfold addEndpoints
    dsimp only
    rw [if_neg (List.not_mem_nil 0), if_neg (by simpa using hn1)]
    rfl
  have hsort : sortLe [0, c.smoothed.length - 1] = [0, c.smoothed.length - 1] := by
    simp [sortLe, insertLe]
  have hfc : filteredCps c = [0, c.smoothed.length - 1] := by
    unfold filteredCps
    dsimp only
    rw [hscan, hae, hsort]
    unfold minSpacingFilter
    simp [List.getLastD_cons]
  have ht0 : c.times.getD 0 0 = 0 := getD_zero_of_head? c.times 0 0 hthead
  have htL : c.times.getD (c.smoothed.length - 1) 0 = fs.duration := by
    rw [← hlen]
    exact getD_last_of_getLast? c.times 0 fs.duration htlast
  refine ⟨some (sumSlice c.smoothed 0 (c.smoothed.length - 1 + 1) /
    (((c.smoothed.length - 1 : ℕ) : ℚ) - ((0 : ℕ) : ℚ) + 1)), ?_⟩
  unfold detect_segments
  rw [if_neg hndeg, hc]
  simp only [Option.map_some', Option.some.injEq]
  rw [hfc]
  unfold buildSegments
  dsimp only
  rw [show ([0, c.smoothed.length - 1] : List ℕ).length - 1 = 1 from rfl,
    show List.range 1 = [0] from rfl]
  simp only [List.map_cons, List.map_nil]
  rw [show ([0, c.smoothed.length - 1] : List ℕ).getD 0 0 = 0 from rfl,
    show ([0, c.smoothed.length - 1] : List ℕ).getD 1 0 = c.smoothed.length - 1 from rfl,
    ht0, htL]
  rfl

/-- C5 counterexample: a concrete non-degraded feature set (constant energy,
five samples) whose scan accepts no interior change point; the detector
returns exactly one segment labeled intro, not the claimed two segments
(intro, outro). -/
theorem detect_segments_no_interior_one_segment :
    segCtx
        { filename := "w.mp3", duration := 4, tempo := 100, sampleRate := 44100,
          generationMethod := none, beats := [], onsets := [],
          energy_profile := [(0, 1), (1, 1), (2, 1), (3, 1), (4, 1)], notes := [] } =
      some ⟨[0, 1, 2, 3, 4], [1, 1, 1, 1, 1], 30, 12, 7/5, 3/5, 7/20⟩ ∧
    scanChangePoints [1, 1, 1, 1, 1] 30 12 (7/20) = [] ∧
    detect_segments true
        { filename := "w.mp3", duration := 4, tempo := 100, sampleRate := 44100,
          generationMethod := none, beats := [], onsets := [],
          energy_profile := [(0, 1), (1, 1), (2, 1), (3, 1), (4, 1)], notes := [] } =
      some [⟨"intro", 0, 4, some 1⟩] ∧
    ([⟨"intro", 0, 4, some 1⟩] : List Segment).length = 1 ∧
    (1 : ℕ) ≠ 2 := by
  refine ⟨by with_unfolding_all rfl, rfl, by with_unfolding_all rfl, rfl, by decide⟩

/-- C5 witness: the amended single-intro-segment statement at the concrete
scan-free feature set. -/
theorem detect_segments_no_interior_cp_witness :
    ∃ eVal : Option ℚ,
      detect_segments true
          { filename := "w2.mp3", duration := 4, tempo := 100, sampleRate := 44100,
            generationMethod := none, beats := [], onsets := [],
            energy_profile := [(0, 1), (1, 1), (2, 1), (3, 1), (4, 1)], notes := [] } =
        some [⟨"intro", 0, 4, eVal⟩] := by
  exact detect_segments_no_interior_cp
    { filename := "w2.mp3", duration := 4, tempo := 100, sampleRate := 44100,
      generationMethod := none, beats := [], onsets := [],
      energy_profile := [(0, 1), (1, 1), (2, 1), (3, 1), (4, 1)], notes := [] }
    ⟨[0, 1, 2, 3, 4], [1, 1, 1, 1, 1], 30, 12, 7/5, 3/5, 7/20⟩
    (by decide) (by with_unfolding_all rfl) rfl (by decide) (by decide) rfl rfl

end ReactOverdrive
